import Mathlib

/-!
Shallow embedding of the `iterant` chainable-sequence library
(src/iterant.js, src/iterant-array.js, src/iterant-sequence.js).

JavaScript values are modelled by `JSValue`, JS numbers by `JSNum`
(rationals plus NaN; the claims involve no infinities). Iterating a JS
iterable is modelled by the list of items it produces, in order. A lazy
operator written as a generator function is modelled by the list of items
a full consumption of it yields; an error thrown at any point of that
consumption is modelled by `Except.error`.
-/

/-- A JavaScript number: a rational, or NaN. Every relational comparison
involving NaN is false. -/
inductive JSNum where
  | rat (q : ℚ)
  | nan
deriving DecidableEq, Repr

/-- The fragment of JavaScript values the library's behavior depends on. -/
inductive JSValue where
  | undef
  | null
  | bool (b : Bool)
  | num (n : JSNum)
  | str (s : String)
  | arr (xs : List JSValue)

/-- The items produced by iterating a value with `for..of` / `yield*`:
an array yields its elements, a string yields its characters as
one-character strings, and every other value in this fragment is not
iterable (`none`). -/
def toItems : JSValue → Option (List JSValue)
  | .arr xs => some xs
  | .str s => some (s.data.map fun c => .str (String.mk [c]))
  | _ => none

/-- `Iterant.isIterable` (src/iterant.js:133-139): false for `null` and
`undefined`, false for a string only when `ignoreStrings` is true,
otherwise whether the value has a `Symbol.iterator` entry. On this value
fragment, with `ignoreStrings` false, this coincides with `toItems` being
`some`. -/
def isIterable (v : JSValue) (ignoreStrings : Bool) : Bool :=
  match v with
  | .null => false
  | .undef => false
  | .str _ => !ignoreStrings
  | .arr _ => true
  | _ => false

/-- Shorthand for a numeric `JSValue`. -/
def jnum (i : Int) : JSValue := .num (.rat i)

/-- The JS test `i >= b` between the loop counter and the `begin` argument
of the generic slice; false when `b` is NaN. -/
def geNum (i : Nat) : JSNum → Bool
  | .rat q => decide ((i : ℚ) ≥ q)
  | .nan => false

/-- The JS test `i > e` between the loop counter and the `end` argument of
the generic slice; `undefined` (omitted `end`) and NaN both compare
false. -/
def gtEnd (i : Nat) : Option JSNum → Bool
  | some (.rat q) => decide ((i : ℚ) > q)
  | _ => false

/-- The loop of `Iterant.slice` (src/iterant.js:231-239): the item at
zero-based position `i` is yielded when `i >= b` (the post-increment
`index++ >= begin` test), and after each item the loop breaks when
`i + 1 > e` (the `index > end` test on the incremented counter). -/
def sliceLoop (b : JSNum) (e : Option JSNum) : Nat → List α → List α
  | _, [] => []
  | i, v :: rest =>
    (if geNum i b then [v] else []) ++
      (if gtEnd (i + 1) e then [] else sliceLoop b e (i + 1) rest)

/-- `Iterant.slice` (src/iterant.js:220-240), as the outcome of fully
consuming the generator: throws when the source is not iterable; yields
the whole source when `begin` is `undefined`; throws when a defined
`begin` is not a number; otherwise runs the indexed loop. The `end`
argument ranges over numbers or `undefined` (`none`). -/
def Iterant.slice (iterable b : JSValue) (e : Option JSNum) :
    Except String (List JSValue) :=
  match toItems iterable with
  | none => .error "iterable must be iterable"
  | some items =>
    match b with
    | .undef => .ok items
    | .num n => .ok (sliceLoop n e 0 items)
    | _ => .error "begin must be a number"

/-- Whether a `JSValue` is of JS `number` type (NaN included). -/
def JSValue.isNumber : JSValue → Bool
  | .num _ => true
  | _ => false

/-- Outcome of calling a chain method: either an error thrown synchronously
at the call itself, or a wrapper returned, paired with the outcome of later
consuming that wrapper (a generator body, validation included, runs only
when consumption begins). -/
inductive CallResult (α : Type) where
  | thrown (msg : String)
  | wrapper (consumed : Except String α)

/-- A transform/predicate argument position: either a callable, or some
other (non-callable) value. -/
inductive FnArg (φ : Type) where
  | callable (f : φ)
  | notCallable (v : JSValue)

/-- The loop of `Iterant.filter` (src/iterant.js:266-271): the predicate is
called with the item and a counter that increments once per item
considered; the item is yielded when the predicate is truthy. (The third
argument the code passes, the source itself, is dropped here.) -/
def filterLoop (p : JSValue → Nat → Bool) : Nat → List JSValue → List JSValue
  | _, [] => []
  | i, x :: xs =>
    if p x i then x :: filterLoop p (i + 1) xs else filterLoop p (i + 1) xs

/-- `Iterant.prototype.filter` (src/iterant.js:370-374). The method body
reads `this._iterable[Symbol.species] || Iterant` (which throws only for a
nullish source) and then merely constructs the `Iterant.filter` generator
(src/iterant.js:259-272): the generator's validation statements and loop
run only when the result is consumed, so their errors land in the
`wrapper` arm, not in `thrown`. -/
def Iterant.filterMethod (src : JSValue) (p : FnArg (JSValue → Nat → Bool)) :
    CallResult (List JSValue) :=
  match src with
  | .undef => .thrown "cannot read properties of undefined"
  | .null => .thrown "cannot read properties of null"
  | _ =>
    .wrapper
      (match toItems src with
      | none => .error "iterable must be iterable"
      | some items =>
        match p with
        | .notCallable _ => .error "predicate must be a function"
        | .callable f => .ok (filterLoop f 0 items))

/-- The argument loop of `Iterant.concat` (src/iterant.js:273-278): each
trailing argument is spliced with `yield* arg`, which throws a TypeError
as soon as it reaches an argument that is not iterable. -/
def Iterant.concatTail : List JSValue → Except String (List JSValue)
  | [] => .ok []
  | a :: rest =>
    match toItems a with
    | none => .error "argument is not iterable"
    | some xs => (Iterant.concatTail rest).map fun ys => xs ++ ys

/-- `Iterant.concat` (src/iterant.js:273-278), as the outcome of fully
consuming the generator: `yield* iterable` first (given here as the source
items), then `yield* arg` for each trailing argument in order. -/
def Iterant.concat (items : List JSValue) (args : List JSValue) :
    Except String (List JSValue) :=
  (Iterant.concatTail args).map fun ys => items ++ ys

/-- The loop of `Iterant.reduce` (src/iterant.js:200-204): a left-to-right
fold, calling the reducer with the accumulator, the item, and an index
starting at 0. (The fourth argument the code passes, `this`, is dropped
here; it does not affect a binary reducer.) -/
def Iterant.reduceLoop (fn : α → β → Nat → α) : α → Nat → List β → α
  | v, _, [] => v
  | v, i, x :: xs => Iterant.reduceLoop fn (fn v x i) (i + 1) xs

/-- `Iterant.reduce` (src/iterant.js:196-205) on the items of a
capability-satisfying source: eager left fold starting from `init` at
index 0. -/
def Iterant.reduce (items : List β) (fn : α → β → Nat → α) (init : α) : α :=
  Iterant.reduceLoop fn init 0 items

/-- The three wrapper constructors of the library. -/
inductive WrapperKind where
  | iterant
  | iterantArray
  | iterantSequence
deriving DecidableEq, Repr

/-- A source value together with its optional `Symbol.species` marker (the
preferred wrapper constructor a source may declare; plain arrays and
generator objects have none). -/
structure SpeciesSource where
  items : List JSValue
  species : Option WrapperKind

/-- Constructor resolution in `Iterant.prototype.map` (src/iterant.js:311):
`this._iterable[Symbol.species] || Iterable`. The fallback identifier
`Iterable` is bound nowhere in the module (iterant.js only requires
`./iterant-array.js`), so evaluating the fallback throws a
ReferenceError. -/
def Iterant.mapSpecies (src : SpeciesSource) : Except String WrapperKind :=
  match src.species with
  | some k => .ok k
  | none => .error "ReferenceError: Iterable is not defined"

/-- Constructor resolution in `Iterant.prototype.slice`, `filter` and
`concat` (src/iterant.js:350,371,388): `this._iterable[Symbol.species] ||
Iterant`, falling back to the generic constructor. -/
def Iterant.methodSpecies (src : SpeciesSource) : WrapperKind :=
  src.species.getD .iterant

/-- `Iterant.prototype.map` (src/iterant.js:310-314): resolve the result
constructor from the current source, then wrap the mapped sequence in it;
the result pairs the resolved constructor with the consumed items. The
constructor resolution runs synchronously at the call. -/
def Iterant.mapMethod (src : SpeciesSource) (f : JSValue → JSValue) :
    Except String (WrapperKind × List JSValue) :=
  (Iterant.mapSpecies src).map fun k => (k, src.items.map f)

/-- Insertion of `x` into `l`, placing `x` before the first element `y`
with `le x y`. -/
def sInsert (le : α → α → Bool) (x : α) : List α → List α
  | [] => [x]
  | y :: ys => if le x y then x :: y :: ys else y :: sInsert le x ys

/-- Insertion sort driven by a boolean comparison. -/
def sSort (le : α → α → Bool) : List α → List α
  | [] => []
  | x :: xs => sInsert le x (sSort le xs)

/-- Modelled from the spec: the native `Array.prototype.sort` primitive
with a comparator (an out-of-scope builtin, §1) — a comparison sort that
places `a` no later than `b` when `cmp a b <= 0`. -/
def jsSortWith (cmp : α → α → Int) (l : List α) : List α :=
  sSort (fun a b => decide (cmp a b ≤ 0)) l

/-- JS `String(n)` for a number. Integral rationals print as JS integers
do; the non-integral rendering is a model approximation (no claim compares
stringified non-integral numbers). -/
def jsNumToString : JSNum → String
  | .nan => "NaN"
  | .rat q => if q.den = 1 then toString q.num else toString q

mutual
/-- JS `String(v)` on this value fragment (`Array.prototype.toString`
joins the stringified elements with commas). -/
def jsToString : JSValue → String
  | .undef => "undefined"
  | .null => "null"
  | .bool b => cond b "true" "false"
  | .num n => jsNumToString n
  | .str s => s
  | .arr xs => jsToStringList xs
/-- Comma-joined stringification of array elements. -/
def jsToStringList : List JSValue → String
  | [] => ""
  | [x] => jsToString x
  | x :: xs => jsToString x ++ "," ++ jsToStringList xs
end

/-- `defaultComparator` inside `Iterant.prototype.sort`
(src/iterant.js:409-416): convert both operands to strings; `0` when
equal, `-1` when the first is smaller, else `1`. -/
def defaultComparator (a b : JSValue) : Int :=
  if jsToString a = jsToString b then 0
  else if jsToString a < jsToString b then -1
  else 1

/-- Modelled from the spec: the comparison `Array.prototype.sort` applies
when called with an `undefined` comparator (an out-of-scope builtin) —
stringify both operands and compare. -/
def builtinSortCompare (a b : JSValue) : Int :=
  if jsToString a < jsToString b then -1
  else if jsToString b < jsToString a then 1
  else 0

/-- `IterantArray.prototype.sort` (src/iterant-array.js:78-80):
`IterantArray(this._iterable.sort(comparator))`. `Array.prototype.sort`
sorts the receiver's own backing array in place and returns that same
array, so the call leaves the receiver's source sorted (`sourceAfter`)
and wraps the very same array as the result (`resultItems`). An omitted
comparator (`none`) means the builtin default comparison. -/
def IterantArray.sortCall (source : List JSValue)
    (comparator : Option (JSValue → JSValue → Int)) :
    List JSValue × List JSValue :=
  let sorted := jsSortWith (comparator.getD builtinSortCompare) source
  (sorted, sorted)

/-- `Iterant.prototype.sort` (src/iterant.js:405-419) on the materialized
items of the wrapper: sorts `Array.from(this)` (a fresh array) with the
given comparator, or `defaultComparator` when omitted. -/
def Iterant.sortMethod (items : List JSValue)
    (comparator : Option (JSValue → JSValue → Int)) : List JSValue :=
  jsSortWith (comparator.getD defaultComparator) items

/-- A wrapper instance: one of the three variants, holding its source's
items. -/
inductive Wrapper where
  | iterant (items : List JSValue)
  | iterantArray (items : List JSValue)
  | iterantSequence (items : List JSValue)

/-- The items of a wrapper's source. -/
def Wrapper.items : Wrapper → List JSValue
  | .iterant l => l
  | .iterantArray l => l
  | .iterantSequence l => l

/-- Whether a wrapper is the Array-Specialized variant. -/
def Wrapper.isIterantArray : Wrapper → Bool
  | .iterantArray _ => true
  | _ => false

/-- `sort()` with no comparator on each wrapper variant:
`Iterant.prototype.sort` (src/iterant.js:405-419) sorts with
`defaultComparator` and returns an `IterantArray`;
`IterantSequence.prototype.sort` (src/iterant-sequence.js:114-121) emits a
console warning and delegates to `Iterant.prototype.sort`;
`IterantArray.prototype.sort` (src/iterant-array.js:78-80) delegates to
`Array.prototype.sort` with an `undefined` comparator and wraps the result
in an `IterantArray`. -/
def Wrapper.sortNoArg : Wrapper → Wrapper
  | .iterant l => .iterantArray (Iterant.sortMethod l none)
  | .iterantSequence l => .iterantArray (Iterant.sortMethod l none)
  | .iterantArray l => .iterantArray (IterantArray.sortCall l none).1

/-- The `begin`/`end` validation of `IterantSequence.prototype.slice`
(src/iterant-sequence.js:81,85): of JS `number` type, not negative, and
with zero fractional part (`0 === v % 1`, which also rules out NaN). -/
def isNonNegInt : JSValue → Bool
  | .num (.rat q) => decide (0 ≤ q) && decide (q.den = 1)
  | _ => false

/-- JS truthiness of a value, as tested by `if (end)`
(src/iterant-sequence.js:84): `undefined`, `null`, `false`, `0`, NaN and
the empty string are falsy. -/
def jsTruthy : JSValue → Bool
  | .undef => false
  | .null => false
  | .bool b => b
  | .num (.rat q) => decide (q ≠ 0)
  | .num .nan => false
  | .str s => decide (s ≠ "")
  | .arr _ => true

/-- The natural number a validated non-negative integral bound denotes. -/
def JSValue.toBound : JSValue → Nat
  | .num (.rat q) => q.num.toNat
  | _ => 0

/-- Modelled from the spec: `fn.subsequence`, the external
bounded-materialization primitive (§6) — given a 1-based start offset and
an optional length, the restricted window of the sequence; with the
length omitted, the rest of the sequence. -/
def fnSubsequence (items : List α) (start : Nat) (len : Option Nat) :
    List α :=
  match len with
  | none => items.drop (start - 1)
  | some n => (items.drop (start - 1)).take n

/-- `IterantSequence.prototype.slice` (src/iterant-sequence.js:76-96) on
the items of the wrapped sequence. `begin` omitted returns a new wrapper
over the same source. A defined `begin` must pass `isNonNegInt` or the
call throws. The `end` branch is guarded by the truthiness test
`if (end)`: when `end` is truthy it must pass `isNonNegInt` and be at
least `begin`, and `fn.subsequence(seq, begin + 1, end - begin)` is
invoked; otherwise (omitted, or falsy such as `0`)
`fn.subsequence(seq, begin + 1)` is invoked. -/
def IterantSequence.slice (items : List α) (b e : Option JSValue) :
    Except String (List α) :=
  match b with
  | none => .ok items
  | some bv =>
    if isNonNegInt bv = false then
      .error "begin must be a positive integer"
    else
      let bn := bv.toBound
      let ev := e.getD .undef
      if jsTruthy ev then
        if isNonNegInt ev = false then
          .error "end must be a positive integer greater than begin"
        else if ev.toBound < bn then
          .error "end must be a positive integer greater than begin"
        else .ok (fnSubsequence items (bn + 1) (some (ev.toBound - bn)))
      else .ok (fnSubsequence items (bn + 1) none)

/-! Helper lemmas. -/

theorem reduceLoop_eq_foldl (f : α → β → α) :
    ∀ (l : List β) (v : α) (i : Nat),
      Iterant.reduceLoop (fun a b _ => f a b) v i l = l.foldl f v := by
  intro l
  induction l with
  | nil => intro v i; rfl
  | cons x xs ih =>
    intro v i
    simpa [Iterant.reduceLoop, List.foldl] using ih (f v x) (i + 1)

theorem geNum_zero (i : Nat) : geNum i (.rat 0) = true := by
  simp [geNum]

theorem geNum_nonpos (i : Nat) (q : ℚ) (hq : q ≤ 0) :
    geNum i (.rat q) = true := by
  simp only [geNum, decide_eq_true_eq, ge_iff_le]
  exact hq.trans (Nat.cast_nonneg i)

theorem sliceLoop_nonpos {α : Type} (q : ℚ) (hq : q ≤ 0) (e : Option JSNum) :
    ∀ (l : List α) (i : Nat),
      sliceLoop (.rat q) e i l = sliceLoop (.rat 0) e i l := by
  intro l
  induction l with
  | nil => intro i; rfl
  | cons x xs ih =>
    intro i
    simp [sliceLoop, geNum_zero, geNum_nonpos i q hq, ih (i + 1)]

theorem sInsert_perm (le : α → α → Bool) (x : α) (l : List α) :
    (sInsert le x l).Perm (x :: l) := by
  induction l with
  | nil => exact List.Perm.refl _
  | cons y ys ih =>
    by_cases h : le x y
    · simp [sInsert, h]
    · simp only [sInsert, if_neg h]
      exact (ih.cons y).trans (List.Perm.swap x y ys)

theorem sSort_perm (le : α → α → Bool) (l : List α) :
    (sSort le l).Perm l := by
  induction l with
  | nil => exact List.Perm.refl _
  | cons x xs ih => exact (sInsert_perm le x (sSort le xs)).trans (ih.cons x)

theorem sorted_sInsert (le : α → α → Bool) (r : α → α → Prop)
    (hle : ∀ a b, le a b = true ↔ r a b)
    (htot : ∀ a b, r a b ∨ r b a)
    (htrans : ∀ a b c, r a b → r b c → r a c) (x : α) :
    ∀ l : List α, List.Sorted r l → List.Sorted r (sInsert le x l) := by
  intro l
  induction l with
  | nil => intro _; simp [sInsert]
  | cons y ys ih =>
    intro hsort
    rw [List.sorted_cons] at hsort
    obtain ⟨hy, hys⟩ := hsort
    by_cases h : le x y = true
    · simp only [sInsert, if_pos h]
      rw [List.sorted_cons]
      refine ⟨?_, List.sorted_cons.mpr ⟨hy, hys⟩⟩
      intro z hz
      rcases List.mem_cons.mp hz with rfl | hz'
      · exact (hle x z).mp h
      · exact htrans x y z ((hle x y).mp h) (hy z hz')
    · simp only [sInsert, if_neg h]
      rw [List.sorted_cons]
      refine ⟨?_, ih hys⟩
      intro z hz
      have hz' := (sInsert_perm le x ys).mem_iff.mp hz
      rcases List.mem_cons.mp hz' with rfl | hz''
      · rcases htot y z with hyz | hzy
        · exact hyz
        · exact absurd ((hle z y).mpr hzy) h
      · exact hy z hz''

theorem sSort_sorted (le : α → α → Bool) (r : α → α → Prop)
    (hle : ∀ a b, le a b = true ↔ r a b)
    (htot : ∀ a b, r a b ∨ r b a)
    (htrans : ∀ a b c, r a b → r b c → r a c) :
    ∀ l : List α, List.Sorted r (sSort le l) := by
  intro l
  induction l with
  | nil => simp [sSort]
  | cons x xs ih => exact sorted_sInsert le r hle htot htrans x _ ih

theorem defaultComparator_le_iff (a b : JSValue) :
    (decide (defaultComparator a b ≤ 0) = true) ↔
      jsToString a ≤ jsToString b := by
  simp only [decide_eq_true_eq, defaultComparator]
  by_cases h1 : jsToString a = jsToString b
  · simp [h1]
  · by_cases h2 : jsToString a < jsToString b
    · simp [h1, h2, le_of_lt h2]
    · simp only [if_neg h1, if_neg h2]
      constructor
      · intro h; exact absurd h (by norm_num)
      · intro hle'; exact absurd (lt_of_le_of_ne hle' h1) h2

theorem builtinSortCompare_le_iff (a b : JSValue) :
    (decide (builtinSortCompare a b ≤ 0) = true) ↔
      jsToString a ≤ jsToString b := by
  simp only [decide_eq_true_eq, builtinSortCompare]
  by_cases h2 : jsToString a < jsToString b
  · simp [h2, le_of_lt h2]
  · by_cases h3 : jsToString b < jsToString a
    · simp only [if_neg h2, if_pos h3]
      constructor
      · intro h; exact absurd h (by norm_num)
      · intro hle'; exact absurd hle' (not_le_of_lt h3)
    · simp only [if_neg h2, if_neg h3]
      have : jsToString a = jsToString b := le_antisymm (not_lt.mp h3) (not_lt.mp h2)
      simp [this]

theorem jsSortWith_perm (cmp : α → α → Int) (l : List α) :
    (jsSortWith cmp l).Perm l :=
  sSort_perm _ l

theorem jsSortWith_sorted_str (cmp : JSValue → JSValue → Int)
    (hc : ∀ a b, (decide (cmp a b ≤ 0) = true) ↔ jsToString a ≤ jsToString b)
    (l : List JSValue) :
    List.Sorted (fun a b => jsToString a ≤ jsToString b) (jsSortWith cmp l) :=
  sSort_sorted _ _ hc (fun _ _ => le_total _ _)
    (fun _ _ _ hab hbc => le_trans hab hbc) l

theorem defaultComparator_eval_ba :
    defaultComparator (.str "b") (.str "a") = 1 := by
  simp [defaultComparator, jsToString]; decide

theorem defaultComparator_eval_bc :
    defaultComparator (.str "b") (.str "c") = -1 := by
  simp [defaultComparator, jsToString]; decide

theorem defaultComparator_eval_ac :
    defaultComparator (.str "a") (.str "c") = -1 := by
  simp [defaultComparator, jsToString]; decide

theorem builtinSortCompare_eval_ba :
    builtinSortCompare (.str "b") (.str "a") = 1 := by
  simp [builtinSortCompare, jsToString]; decide

theorem builtinSortCompare_eval_bc :
    builtinSortCompare (.str "b") (.str "c") = -1 := by
  simp [builtinSortCompare, jsToString]; decide

theorem builtinSortCompare_eval_ac :
    builtinSortCompare (.str "a") (.str "c") = -1 := by
  simp [builtinSortCompare, jsToString]; decide

/-! Claim theorems. -/

/-- C1: the claim states that the generic `slice(s, begin, end)` yields
exactly the items at positions in the half-open interval `[begin, end)`
and nothing at position `end` or beyond. Evaluating the embedded code at
the failing input: `slice([1,2,3,4], 1, 3)` yields `[2, 3, 4]` — the item
at position `end` is also yielded (the loop breaks only after the
post-increment counter exceeds `end`), while the claim and the function's
own doc example (src/iterant.js:218) require `[2, 3]`. -/
theorem c1_generic_slice_includes_position_end :
    Iterant.slice (.arr [jnum 1, jnum 2, jnum 3, jnum 4]) (jnum 1)
        (some (.rat 3)) = .ok [jnum 2, jnum 3, jnum 4] := by
  rfl

/-- C2: the claim states no chain method ever mutates the wrapper it was
called on or its source. Evaluating the embedded code at the failing
input: `IterantArray(['b','a']).sort()` delegates to the in-place
`Array.prototype.sort`, so after the call the receiver's own source has
become `['a','b']`, different from its value `['b','a']` before the
call. -/
theorem c2_iterant_array_sort_mutates_receiver_source :
    IterantArray.sortCall [.str "b", .str "a"] none =
        ([.str "a", .str "b"], [.str "a", .str "b"])
      ∧ ([.str "a", .str "b"] : List JSValue) ≠ [.str "b", .str "a"] := by
  constructor
  · simp [IterantArray.sortCall, jsSortWith, sSort, sInsert,
      builtinSortCompare_eval_ba]
  · simp

/-- C3: the claim states an invalid argument to `map`/`filter`/`slice`
raises the type error synchronously at the chain-method call, before any
consumption. Evaluating the embedded code at the failing inputs: calling
`filter` with a non-callable predicate (and with a non-iterable source)
returns a wrapper without throwing — the `TypeError` is raised only when
the returned wrapper is consumed, because the validation statements sit
inside the generator body. -/
theorem c3_chain_validation_deferred_to_consumption :
    Iterant.filterMethod (.arr [jnum 1, jnum 2, jnum 3])
        (.notCallable (jnum 42)) =
        .wrapper (.error "predicate must be a function")
      ∧ Iterant.filterMethod (jnum 5) (.callable fun _ _ => true) =
        .wrapper (.error "iterable must be iterable") :=
  ⟨rfl, rfl⟩

/-- C4: the claim states the generic `concat` yields a non-iterable
trailing argument as a single item, so `concat(source, 4)` succeeds and
yields `4`. Evaluating the embedded code at the failing input: the
generator splices every trailing argument with `yield* arg`
unconditionally, so `concat([1,2,3], 4)` throws a TypeError during
consumption instead of yielding `4`. -/
theorem c4_generic_concat_throws_on_noniterable_argument :
    Iterant.concat [jnum 1, jnum 2, jnum 3] [jnum 4] =
      .error "argument is not iterable" :=
  rfl

/-- C5: the claim states every chain method falls back to the Generic
Wrapper constructor when the source declares no species marker, so `map`
on a Generic Wrapper over a plain array succeeds. Evaluating the embedded
code at the failing input: `map`'s fallback expression names the unbound
identifier `Iterable` (src/iterant.js:311), so the call throws a
ReferenceError instead of returning a Generic Wrapper, while
`slice`/`filter`/`concat` correctly fall back to `Iterant`. -/
theorem c5_map_species_fallback_is_unbound :
    Iterant.mapMethod ⟨[jnum 1, jnum 2, jnum 3], none⟩ (fun v => v) =
        .error "ReferenceError: Iterable is not defined"
      ∧ Iterant.methodSpecies ⟨[jnum 1, jnum 2, jnum 3], none⟩ = .iterant :=
  ⟨rfl, rfl⟩

/-- C6: the claim states that with valid bounds the external-sequence
`slice(begin, end)` always invokes the bounded-materialization primitive
with start `begin + 1` and length `end - begin`. Evaluating the embedded
code at the failing input `slice(0, 0)` (valid bounds, so the claim
requires length `0`, the empty sequence): the `if (end)` truthiness guard
treats `end = 0` as omitted and the whole six-element sequence is
returned. The first conjunct shows the neighbouring valid case
`slice(3, 3)` does produce the empty sequence. -/
theorem c6_sequence_slice_end_zero_divergence :
    IterantSequence.slice [(10 : Int), 20, 30, 40, 50, 60]
        (some (jnum 3)) (some (jnum 3)) = .ok []
      ∧ IterantSequence.slice [(10 : Int), 20, 30, 40, 50, 60]
        (some (jnum 0)) (some (jnum 0)) = .ok [10, 20, 30, 40, 50, 60] := by
  constructor
  · rfl
  · rfl

/-- C7: `sort()` with no comparator always returns the Array-Specialized
variant, whatever variant it was called on; the default comparison
stringifies both operands and returns `-1`, `0` or `1`; the result is a
permutation of the input sorted ascending by stringified value; and on
source `['b','a','c']` every variant produces `['a','b','c']`. -/
theorem c7_sort_defaults_and_downgrades_to_array :
    (∀ w : Wrapper, (Wrapper.sortNoArg w).isIterantArray = true)
      ∧ (∀ a b : JSValue,
          defaultComparator a b = -1 ∨ defaultComparator a b = 0 ∨
            defaultComparator a b = 1)
      ∧ (∀ w : Wrapper, ((Wrapper.sortNoArg w).items).Perm w.items)
      ∧ (∀ w : Wrapper,
          List.Sorted (fun a b => jsToString a ≤ jsToString b)
            (Wrapper.sortNoArg w).items)
      ∧ Wrapper.sortNoArg (.iterant [.str "b", .str "a", .str "c"]) =
          .iterantArray [.str "a", .str "b", .str "c"]
      ∧ Wrapper.sortNoArg (.iterantArray [.str "b", .str "a", .str "c"]) =
          .iterantArray [.str "a", .str "b", .str "c"]
      ∧ Wrapper.sortNoArg (.iterantSequence [.str "b", .str "a", .str "c"]) =
          .iterantArray [.str "a", .str "b", .str "c"] := by
  refine ⟨?_, ?_, ?_, ?_, ?_, ?_, ?_⟩
  · intro w; cases w <;> rfl
  · intro a b
    unfold defaultComparator
    split_ifs <;> simp
  · intro w
    cases w with
    | iterant l => exact jsSortWith_perm defaultComparator l
    | iterantArray l => exact jsSortWith_perm builtinSortCompare l
    | iterantSequence l => exact jsSortWith_perm defaultComparator l
  · intro w
    cases w with
    | iterant l => exact jsSortWith_sorted_str _ defaultComparator_le_iff l
    | iterantArray l => exact jsSortWith_sorted_str _ builtinSortCompare_le_iff l
    | iterantSequence l => exact jsSortWith_sorted_str _ defaultComparator_le_iff l
  · show Wrapper.iterantArray
        (jsSortWith defaultComparator [.str "b", .str "a", .str "c"]) = _
    simp [jsSortWith, sSort, sInsert, defaultComparator_eval_ba,
      defaultComparator_eval_bc, defaultComparator_eval_ac]
  · show Wrapper.iterantArray
        (jsSortWith builtinSortCompare [.str "b", .str "a", .str "c"]) = _
    simp [jsSortWith, sSort, sInsert, builtinSortCompare_eval_ba,
      builtinSortCompare_eval_bc, builtinSortCompare_eval_ac]
  · show Wrapper.iterantArray
        (jsSortWith defaultComparator [.str "b", .str "a", .str "c"]) = _
    simp [jsSortWith, sSort, sInsert, defaultComparator_eval_ba,
      defaultComparator_eval_bc, defaultComparator_eval_ac]

/-- C8: `reduce` is an eager left fold: on any source items it equals
`List.foldl` of the binary function from `init`; on `[1,2,3]` with
addition and `init = 0` it returns `6`; on an empty source it returns
`init`. -/
theorem c8_reduce_is_left_fold :
    (∀ (α β : Type) (items : List β) (f : α → β → α) (init : α),
        Iterant.reduce items (fun a b _ => f a b) init = items.foldl f init)
      ∧ Iterant.reduce [(1 : Int), 2, 3] (fun a b _ => a + b) 0 = 6
      ∧ ∀ init : Int,
          Iterant.reduce ([] : List Int) (fun a b _ => a + b) init = init := by
  refine ⟨?_, rfl, fun init => rfl⟩
  intro α β items f init
  exact reduceLoop_eq_foldl f items init 0

/-- C9: in the external-sequence `slice`, an explicit `end` equal to `0`
is treated exactly as an omitted `end` (the `if (end)` truthiness guard
skips its validation and the primitive is invoked with only the start
offset), and `slice(0, 0)` raises no error and returns the entire
sequence. -/
theorem c9_sequence_slice_end_zero_acts_as_omitted :
    (∀ (α : Type) (items : List α) (bv : JSValue),
        IterantSequence.slice items (some bv) (some (jnum 0)) =
          IterantSequence.slice items (some bv) none)
      ∧ IterantSequence.slice [(1 : Int), 2, 3, 4, 5, 6]
          (some (jnum 0)) (some (jnum 0)) = .ok [1, 2, 3, 4, 5, 6] := by
  constructor
  · intro α items bv
    rfl
  · rfl

/-- C10: for a capability-satisfying source and a defined `begin`, the
generic slice raises a type error iff `begin` is not of number type
(negative and fractional numbers are accepted), and a negative numeric
`begin` yields exactly what `begin = 0` yields, for every `end` bound. -/
theorem c10_generic_slice_begin_validation (s : JSValue)
    (items : List JSValue) (hs : toItems s = some items) :
    (∀ (b : JSValue) (e : Option JSNum), b ≠ .undef →
        ((Iterant.slice s b e).isOk = false ↔ b.isNumber = false))
      ∧ ∀ (q : ℚ) (e : Option JSNum), q < 0 →
          Iterant.slice s (.num (.rat q)) e =
            Iterant.slice s (.num (.rat 0)) e := by
  constructor
  · intro b e hb
    cases b with
    | undef => exact absurd rfl hb
    | null => simp [Iterant.slice, hs, JSValue.isNumber, Except.isOk, Except.toBool]
    | bool v => simp [Iterant.slice, hs, JSValue.isNumber, Except.isOk, Except.toBool]
    | num n => simp [Iterant.slice, hs, JSValue.isNumber, Except.isOk, Except.toBool]
    | str v => simp [Iterant.slice, hs, JSValue.isNumber, Except.isOk, Except.toBool]
    | arr xs => simp [Iterant.slice, hs, JSValue.isNumber, Except.isOk, Except.toBool]
  · intro q e hq
    simp only [Iterant.slice, hs]
    rw [sliceLoop_nonpos q hq.le e items 0]

/-- Witness for C10 at concrete inputs: a string `begin` is rejected while
`begin = -2` yields the same as `begin = 0`. -/
theorem c10_generic_slice_begin_validation_witness :
    ((Iterant.slice (.arr [.str "x", .str "y"]) (.str "a") none).isOk =
        false)
      ∧ Iterant.slice (.arr [.str "x", .str "y"]) (.num (.rat (-2)))
          (some (.rat 1)) =
        Iterant.slice (.arr [.str "x", .str "y"]) (.num (.rat 0))
          (some (.rat 1)) :=
  ⟨((c10_generic_slice_begin_validation (.arr [.str "x", .str "y"])
        [.str "x", .str "y"] rfl).1 (.str "a") none
      (fun h => JSValue.noConfusion h)).mpr rfl,
    (c10_generic_slice_begin_validation (.arr [.str "x", .str "y"])
        [.str "x", .str "y"] rfl).2 (-2) (some (.rat 1))
      (by norm_num)⟩
